import Mathlib

/-!
Verification of the museum to-do-list task store
(`src/array-script.js`, with the keyed-map variant as a twin).

The JavaScript store is shallowly embedded: a record (`Task`) carries the
`id`, `name`, `date` and `completed` fields of the JS `Task` class (the
`createdAt` wall-clock timestamp is omitted: it is never read by any
operation), the store state is the task list plus the page-global `nextId`
counter, and each store operation is a pure function from state to state
together with the user-visible error it reports, if any.

JavaScript string primitives used by the source (`trim`, `toLowerCase`,
`includes`, the `^\d{4}-\d{2}-\d{2}$` regex test) are modelled over the
underlying character list so that all definitions evaluate inside the
kernel.
-/

namespace ToDoList

/-- Model of JavaScript `String.prototype.toLowerCase` (the source only
applies it to ASCII text, where it agrees with `Char.toLower`). -/
def jsToLower (s : String) : String := ⟨s.data.map Char.toLower⟩

/-- Drops whitespace from both ends of a character list. -/
def trimChars (l : List Char) : List Char :=
  ((l.dropWhile Char.isWhitespace).reverse.dropWhile Char.isWhitespace).reverse

/-- Model of JavaScript `String.prototype.trim`. -/
def jsTrim (s : String) : String := ⟨trimChars s.data⟩

/-- Check that `needle` occurs as a contiguous sublist of `hay`. -/
def containsAux : List Char → List Char → Bool
  | [], needle => needle.isEmpty
  | h :: t, needle => needle.isPrefixOf (h :: t) || containsAux t needle

/-- Model of JavaScript `String.prototype.includes`. -/
def strContains (hay needle : String) : Bool :=
  containsAux hay.data needle.data

/-- Model of the source regex test `/^\d\x7b4\x7d-\d\x7b2\x7d-\d\x7b2\x7d$/.test s`:
exactly four digits, a dash, two digits, a dash, two digits. -/
def isValidDateFormat (s : String) : Bool :=
  match s.data with
  | [y1, y2, y3, y4, h1, m1, m2, h2, d1, d2] =>
    y1.isDigit && y2.isDigit && y3.isDigit && y4.isDigit && h1 == '-' &&
    m1.isDigit && m2.isDigit && h2 == '-' && d1.isDigit && d2.isDigit
  | _ => false

/-- Numeric value of a digit character. -/
def digitVal (c : Char) : Nat := c.toNat - 48

/-- Numeric model of `new Date(s)` as used by the date sort comparator:
for a string of the shape `YYYY-MM-DD` it returns a value ordered like the
corresponding time value; for any other string the source compares `NaN`
(an unspecified edge case per the design notes), modelled here as `0`. -/
def dateVal (s : String) : Nat :=
  match s.data with
  | [y1, y2, y3, y4, _, m1, m2, _, d1, d2] =>
    (((digitVal y1 * 10 + digitVal y2) * 10 + digitVal y3) * 10 + digitVal y4) * 10000 +
      (digitVal m1 * 10 + digitVal m2) * 100 + (digitVal d1 * 10 + digitVal d2)
  | _ => 0

/-- Lexicographic strict comparison of character lists by code point,
modelling the sign of `localeCompare` on the ASCII museum names. -/
def charListLt : List Char → List Char → Bool
  | [], [] => false
  | [], _ :: _ => true
  | _ :: _, [] => false
  | a :: as, b :: bs => a < b || (a == b && charListLt as bs)

/-- Record of the store: the `Task` class of the source, minus the
`createdAt` timestamp (a wall-clock value no operation ever reads). -/
structure Task where
  id : Nat
  name : String
  date : String
  completed : Bool
deriving Repr, DecidableEq

/-- Store state: the `tasks` array together with the page-global
`window.nextId` counter. -/
structure Store where
  tasks : List Task
  nextId : Nat
deriving Repr, DecidableEq

/-- Seed data `initialMuseums` of `src/array-script.js`: eight museums of
Bologna, two of them already visited. -/
def initialMuseums : List (String × String × Bool) :=
  [("Museo Civico Archeologico", "2024-02-15", false),
   ("Pinacoteca Nazionale di Bologna", "2024-02-20", true),
   ("Museo della Storia di Bologna", "2024-03-01", false),
   ("MAMbo - Museo d\x27Arte Moderna di Bologna", "2024-03-10", false),
   ("Museo Internazionale della Musica", "2024-03-15", true),
   ("Museo Civico Medievale", "2024-03-20", false),
   ("Museo di Palazzo Poggi", "2024-04-01", false),
   ("Museo della Tappezzeria", "2024-04-05", false)]

/-- Conversion of the seed list into tasks with ids `i, i+1, ...`,
modelling `initialMuseums.map((museum, index) => new Task(index + 1, ...))`. -/
def seedTasks : Nat → List (String × String × Bool) → List Task
  | _, [] => []
  | i, m :: rest => ⟨i, m.1, m.2.1, m.2.2⟩ :: seedTasks (i + 1) rest

/-- Maximum id occurring in a task list, `Math.max(...tasks.map(t => t.id))`
for a nonempty list (all ids in the source are positive). -/
def maxTaskId (l : List Task) : Nat := l.foldl (fun m t => max m t.id) 0

/-- Function `updateNextId` of the source: `1` on an empty store, otherwise
the maximum existing id plus one. -/
def updateNextId (l : List Task) : Nat :=
  if l.length = 0 then 1 else maxTaskId l + 1

/-- State produced by `init()`: the seed tasks with ids `1..8` and the
counter set by `updateNextId`. -/
def initState : Store :=
  let tasks := seedTasks 1 initialMuseums
  ⟨tasks, updateNextId tasks⟩

/-- User-visible rejections of `addTask` (the two `alert` branches). -/
inductive AddError where
  | EmptyName
  | MissingDate
deriving Repr, DecidableEq

/-- User-visible rejection of `editTask` (the invalid-format `alert`). -/
inductive EditError where
  | InvalidDateFormat
deriving Repr, DecidableEq

/-- User-visible rejections of the bulk operations. -/
inductive BulkError where
  | EmptyStore
  | NothingToClear
deriving Repr, DecidableEq

/-- Function `addTask(name, date)` of the source: reject a name blank
after trimming, then a falsy (empty) date; otherwise push a new task with
id `nextId`, the trimmed name, the given date, `completed = false`, and
increment the counter. -/
def addTask (s : Store) (name date : String) : Store × Option AddError :=
  if jsTrim name = "" then (s, some AddError.EmptyName)
  else if date = "" then (s, some AddError.MissingDate)
  else ({ tasks := s.tasks ++ [⟨s.nextId, jsTrim name, date, false⟩],
          nextId := s.nextId + 1 }, none)

/-- Applies `f` to the first list element satisfying `p`, modelling a
mutation of the task object returned by `tasks.find(...)`. -/
def updateFirst (p : Task → Bool) (f : Task → Task) : List Task → List Task
  | [] => []
  | t :: ts => if p t then f t :: ts else t :: updateFirst p f ts

/-- Function `toggleDone(taskId)` of the source: flip `completed` on the
first (in the source, unique) task with that id; no change if absent. -/
def toggleDone (s : Store) (taskId : Nat) : Store :=
  { s with tasks := (updateFirst (fun t => t.id == taskId)
      (fun t => { t with completed := !t.completed }) s.tasks) }

/-- Function `removeTask(taskId)` of the source after the user confirms:
filter the task with that id out of the array, leaving `nextId` alone. -/
def removeTask (s : Store) (taskId : Nat) : Store :=
  { s with tasks := s.tasks.filter (fun t => t.id != taskId) }

/-- Name-prompt step of `editTask`: the name of the found task (`current`)
is replaced by the trimmed reply when the reply is truthy, nonblank after
trimming and different from the current name; otherwise the state is kept
(`none` models a cancelled prompt). -/
def editName (s : Store) (taskId : Nat) (current : Task) (newName : Option String) :
    Store :=
  match newName with
  | none => s
  | some nm =>
    if nm ≠ "" ∧ jsTrim nm ≠ "" ∧ jsTrim nm ≠ current.name then
      { s with tasks := (updateFirst (fun t => t.id == taskId)
          (fun t => { t with name := jsTrim nm }) s.tasks) }
    else s

/-- Function `editTask(taskId)` of the source, with the two `prompt`
results as explicit arguments. After the name-prompt step the date reply,
when truthy and different from the current date, is checked against the
`YYYY-MM-DD` regex and either applied or rejected with
`InvalidDateFormat`. -/
def editTask (s : Store) (taskId : Nat) (newName newDate : Option String) :
    Store × Option EditError :=
  match s.tasks.find? (fun t => t.id == taskId) with
  | none => (s, none)
  | some task =>
    let s1 := editName s taskId task newName
    match newDate with
    | none => (s1, none)
    | some nd =>
      if nd ≠ "" ∧ nd ≠ task.date then
        if isValidDateFormat nd then
          ({ s1 with tasks := (updateFirst (fun t => t.id == taskId)
              (fun t => { t with date := nd }) s1.tasks) }, none)
        else (s1, some EditError.InvalidDateFormat)
      else (s1, none)

/-- Filter predicate of `render()`: the status filter keeps everything on
`"all"`, the pending tasks on `"pending"`, the completed ones on
`"completed"`; the search keeps tasks whose lower-cased name contains the
(already lower-cased) search term. -/
def matchesFilter (statusFilter searchTerm : String) (t : Task) : Bool :=
  (statusFilter == "all" ||
    (statusFilter == "pending" && !t.completed) ||
    (statusFilter == "completed" && t.completed)) &&
  strContains (jsToLower t.name) searchTerm

/-- Comparator of `render()` read as a non-strict order (`compare(a,b) ≤ 0`):
by name for `"name"`, by parsed date for `"date"`, pending before completed
for `"status"`, and everything tied for any other key. -/
def taskLe (sortBy : String) (a b : Task) : Bool :=
  if sortBy == "name" then !(charListLt b.name.data a.name.data)
  else if sortBy == "date" then decide (dateVal a.date ≤ dateVal b.date)
  else if sortBy == "status" then !a.completed || b.completed
  else true

/-- Inserts `t` after every element ordered no later than it, the step of a
stable insertion sort. -/
def insertSorted (le : Task → Task → Bool) (t : Task) : List Task → List Task
  | [] => [t]
  | u :: us => if le u t then u :: insertSorted le t us else t :: u :: us

/-- Stable sort of the filtered tasks, modelling `filteredTasks.sort`. -/
def sortTasks (le : Task → Task → Bool) (l : List Task) : List Task :=
  l.foldl (fun acc t => insertSorted le t acc) []

/-- Pure content of `render()`: the filtered and sorted task sequence for a
given status filter, raw search text (lower-cased at the boundary, as the
source lower-cases the input field value) and sort key. -/
def query (s : Store) (statusFilter searchText sortBy : String) : List Task :=
  sortTasks (taskLe sortBy)
    (s.tasks.filter (matchesFilter statusFilter (jsToLower searchText)))

/-- Total count of `updateStats()`: `tasks.length`. -/
def countTotal (s : Store) : Nat := s.tasks.length

/-- Completed count of `updateStats()`: the completed tasks. -/
def countCompleted (s : Store) : Nat :=
  (s.tasks.filter (fun t => t.completed)).length

/-- Pending count of `updateStats()`: total minus completed. -/
def countPending (s : Store) : Nat := countTotal s - countCompleted s

/-- Function `markAllAsCompleted` after confirmation: reports an empty
store, otherwise sets every `completed` flag. -/
def markAllAsCompleted (s : Store) : Store × Option BulkError :=
  if s.tasks.length = 0 then (s, some BulkError.EmptyStore)
  else ({ s with tasks := s.tasks.map (fun t => { t with completed := true }) }, none)

/-- Function `clearCompleted` after confirmation: reports when no task is
completed, otherwise keeps exactly the non-completed tasks. -/
def clearCompleted (s : Store) : Store × Option BulkError :=
  if (s.tasks.filter (fun t => t.completed)).length = 0 then
    (s, some BulkError.NothingToClear)
  else ({ s with tasks := s.tasks.filter (fun t => !t.completed) }, none)

/-- Function `clearAll` after confirmation: reports an already empty store,
otherwise empties the array and resets `nextId` to 1. -/
def clearAll (s : Store) : Store × Option BulkError :=
  if s.tasks.length = 0 then (s, some BulkError.EmptyStore)
  else ({ tasks := [], nextId := 1 }, none)

/-- Store operations reachable from the user interface, used to quantify
over every sequence of calls. -/
inductive Op where
  | initOp
  | add (name date : String)
  | edit (taskId : Nat) (newName newDate : Option String)
  | toggle (taskId : Nat)
  | remove (taskId : Nat)
  | markAll
  | clearComp
  | clearAllOp
deriving Repr, DecidableEq

/-- State transition of one operation (errors discarded, since a rejected
operation leaves the state unchanged by construction). -/
def step (s : Store) : Op → Store
  | .initOp => initState
  | .add n d => (addTask s n d).1
  | .edit i nn nd => (editTask s i nn nd).1
  | .toggle i => toggleDone s i
  | .remove i => removeTask s i
  | .markAll => (markAllAsCompleted s).1
  | .clearComp => (clearCompleted s).1
  | .clearAllOp => (clearAll s).1

/-- Runs a sequence of operations from a state. -/
def run (s : Store) (ops : List Op) : Store := ops.foldl step s

/-- Date-format side condition of an operation: an `add` must carry a
shape-valid date (`addTask` itself never checks this), every other
operation is unconstrained. -/
def opDateOk : Op → Bool
  | .add _ d => isValidDateFormat d
  | _ => true

/-- Runs a sequence of `addTask` calls with the given `(name, date)`
arguments. -/
def addAll (s : Store) (ps : List (String × String)) : Store :=
  ps.foldl (fun acc p => (addTask acc p.1 p.2).1) s

/-! ## Helper lemmas -/

theorem containsAux_nil (l : List Char) : containsAux l [] = true := by
  induction l with
  | nil => rfl
  | cons h t ih => simp [containsAux, List.isPrefixOf]

theorem insertSorted_perm (le : Task → Task → Bool) (t : Task) (l : List Task) :
    (insertSorted le t l).Perm (t :: l) := by
  induction l with
  | nil => simp [insertSorted]
  | cons u us ih =>
    rw [insertSorted]
    split
    · exact (ih.cons u).trans (List.Perm.swap t u us)
    · exact List.Perm.refl _

theorem sortFold_perm (le : Task → Task → Bool) :
    ∀ l acc : List Task,
      (l.foldl (fun a t => insertSorted le t a) acc).Perm (l ++ acc) := by
  intro l
  induction l with
  | nil => intro acc; simp
  | cons t ts ih =>
    intro acc
    rw [List.foldl_cons]
    exact (ih (insertSorted le t acc)).trans
      ((List.Perm.append_left ts (insertSorted_perm le t acc)).trans List.perm_middle)

theorem sortTasks_perm (le : Task → Task → Bool) (l : List Task) :
    (sortTasks le l).Perm l := by
  simpa [sortTasks] using sortFold_perm le l []

theorem mem_query (s : Store) (st se k : String) (t : Task) :
    t ∈ query s st se k ↔ t ∈ s.tasks ∧ matchesFilter st (jsToLower se) t = true := by
  rw [query, (sortTasks_perm _ _).mem_iff]
  exact List.mem_filter

theorem length_query (s : Store) (st se k : String) :
    (query s st se k).length =
      (s.tasks.filter (matchesFilter st (jsToLower se))).length :=
  (sortTasks_perm _ _).length_eq

theorem matchesFilter_iff (st se : String) (t : Task) :
    matchesFilter st se t = true ↔
      (st = "all" ∨ (st = "pending" ∧ t.completed = false) ∨
        (st = "completed" ∧ t.completed = true)) ∧
      strContains (jsToLower t.name) se = true := by
  simp only [matchesFilter, Bool.and_eq_true, Bool.or_eq_true, beq_iff_eq,
    Bool.not_eq_true', or_assoc]

theorem find?_pred {p : Task → Bool} {l : List Task} {t : Task}
    (h : l.find? p = some t) : p t = true := (List.find?_eq_some.mp h).1

theorem mem_updateFirst {p : Task → Bool} {f : Task → Task} {l : List Task} {t : Task}
    (h : t ∈ updateFirst p f l) : t ∈ l ∨ ∃ u ∈ l, t = f u := by
  induction l with
  | nil => simp [updateFirst] at h
  | cons u us ih =>
    rw [updateFirst] at h
    by_cases hp : p u
    · rw [if_pos hp] at h
      rcases List.mem_cons.mp h with h | h
      · exact Or.inr ⟨u, List.mem_cons_self u us, h⟩
      · exact Or.inl (List.mem_cons_of_mem u h)
    · rw [if_neg hp] at h
      rcases List.mem_cons.mp h with h | h
      · exact Or.inl (h ▸ List.mem_cons_self u us)
      · rcases ih h with h' | ⟨v, hv, he⟩
        · exact Or.inl (List.mem_cons_of_mem u h')
        · exact Or.inr ⟨v, List.mem_cons_of_mem u hv, he⟩

theorem find?_updateFirst {p : Task → Bool} {f : Task → Task} {l : List Task} {t : Task}
    (hf : p (f t) = true) (h : l.find? p = some t) :
    (updateFirst p f l).find? p = some (f t) := by
  induction l with
  | nil => simp [List.find?] at h
  | cons u us ih =>
    by_cases hp : p u
    · rw [List.find?_cons] at h
      simp only [hp] at h
      have hu : u = t := Option.some.inj h
      subst hu
      rw [updateFirst, if_pos hp, List.find?_cons]
      simp only [hf]
    · rw [List.find?_cons] at h
      simp only [hp] at h
      rw [updateFirst, if_neg hp, List.find?_cons]
      have hpu : p u = false := by simpa using hp
      simp only [hpu]
      exact ih h

theorem map_updateFirst {α : Type} (g : Task → α) {p : Task → Bool} {f : Task → Task}
    (hg : ∀ x, g (f x) = g x) (l : List Task) :
    (updateFirst p f l).map g = l.map g := by
  induction l with
  | nil => rfl
  | cons u us ih =>
    rw [updateFirst]
    split
    · simp [hg u]
    · simp [ih]

theorem editName_dates (s : Store) (i : Nat) (t : Task) (nn : Option String) :
    (editName s i t nn).tasks.map Task.date = s.tasks.map Task.date := by
  cases nn with
  | none => rfl
  | some nm =>
    rw [editName]
    split
    · apply map_updateFirst
      intro x
      rfl
    · rfl

theorem editName_find {s : Store} {i : Nat} {t : Task} (nm : String)
    (hf : s.tasks.find? (fun u => u.id == i) = some t)
    (h1 : jsTrim nm ≠ "") (h2 : jsTrim nm ≠ t.name) :
    (editName s i t (some nm)).tasks.find? (fun u => u.id == i) =
      some { t with name := jsTrim nm } := by
  have h0 : nm ≠ "" := fun he => h1 (by rw [he]; rfl)
  rw [editName, if_pos ⟨h0, h1, h2⟩]
  have hp : (fun u => u.id == i) ({ t with name := jsTrim nm } : Task) = true :=
    find?_pred hf
  exact find?_updateFirst hp hf

theorem editName_ids (s : Store) (i : Nat) (t : Task) (nn : Option String) :
    (editName s i t nn).tasks.map Task.id = s.tasks.map Task.id := by
  cases nn with
  | none => rfl
  | some nm =>
    rw [editName]
    split
    · apply map_updateFirst
      intro x
      rfl
    · rfl

theorem editName_nextId (s : Store) (i : Nat) (t : Task) (nn : Option String) :
    (editName s i t nn).nextId = s.nextId := by
  cases nn with
  | none => rfl
  | some nm =>
    rw [editName]
    split
    · rfl
    · rfl

theorem addTask_state (s : Store) (n d : String) :
    (addTask s n d).1 = s ∨
      (addTask s n d).1 =
        { tasks := s.tasks ++ [⟨s.nextId, jsTrim n, d, false⟩],
          nextId := s.nextId + 1 } := by
  unfold addTask
  split
  · exact Or.inl rfl
  · split
    · exact Or.inl rfl
    · exact Or.inr rfl

theorem editTask_state (s : Store) (i : Nat) (nn nd : Option String) :
    (editTask s i nn nd).1 = s ∨
    ∃ task, s.tasks.find? (fun u => u.id == i) = some task ∧
      ((editTask s i nn nd).1 = editName s i task nn ∨
        ∃ d, isValidDateFormat d = true ∧
          (editTask s i nn nd).1 =
            { editName s i task nn with
                tasks := (updateFirst (fun u => u.id == i)
                  (fun u => { u with date := d }) (editName s i task nn).tasks) }) := by
  rcases hfind : s.tasks.find? (fun u => u.id == i) with _ | task
  · refine Or.inl ?_
    unfold editTask
    rw [hfind]
  · refine Or.inr ⟨task, hfind, ?_⟩
    cases nd with
    | none =>
      refine Or.inl ?_
      unfold editTask
      rw [hfind]
    | some d =>
      by_cases hc : d ≠ "" ∧ d ≠ task.date
      · by_cases hv : isValidDateFormat d = true
        · refine Or.inr ⟨d, hv, ?_⟩
          unfold editTask
          rw [hfind]
          simp only [if_pos hc, hv, if_pos]
        · refine Or.inl ?_
          unfold editTask
          rw [hfind]
          simp only [if_pos hc, if_neg hv]
      · refine Or.inl ?_
        unfold editTask
        rw [hfind]
        simp only [if_neg hc]

theorem allIds_of_map_eq {s s' : Store}
    (h : ∀ t ∈ s.tasks, t.id < s.nextId)
    (hid : s'.tasks.map Task.id = s.tasks.map Task.id)
    (hn : s'.nextId = s.nextId) :
    ∀ t ∈ s'.tasks, t.id < s'.nextId := by
  intro t ht
  have hm : t.id ∈ s'.tasks.map Task.id := List.mem_map_of_mem _ ht
  rw [hid] at hm
  rcases List.mem_map.mp hm with ⟨u, hu, he⟩
  rw [hn, ← he]
  exact h u hu

theorem allDates_of_map_eq {l l' : List Task}
    (h : ∀ t ∈ l, isValidDateFormat t.date = true)
    (hd : l'.map Task.date = l.map Task.date) :
    ∀ t ∈ l', isValidDateFormat t.date = true := by
  intro t ht
  have hm : t.date ∈ l'.map Task.date := List.mem_map_of_mem _ ht
  rw [hd] at hm
  rcases List.mem_map.mp hm with ⟨u, hu, he⟩
  rw [← he]
  exact h u hu

theorem idBound_step (s : Store) (op : Op)
    (h : ∀ t ∈ s.tasks, t.id < s.nextId) :
    ∀ t ∈ (step s op).tasks, t.id < (step s op).nextId := by
  cases op with
  | initOp =>
    show ∀ t ∈ initState.tasks, t.id < initState.nextId
    decide
  | add n d =>
    show ∀ t ∈ (addTask s n d).1.tasks, t.id < (addTask s n d).1.nextId
    rcases addTask_state s n d with he | he <;> rw [he]
    · exact h
    · intro t ht
      dsimp only at ht ⊢
      rcases List.mem_append.mp ht with h1 | h1
      · exact Nat.lt_succ_of_lt (h t h1)
      · rw [List.mem_singleton] at h1
        subst h1
        exact Nat.lt_succ_self _
  | edit i nn nd =>
    show ∀ t ∈ (editTask s i nn nd).1.tasks, t.id < (editTask s i nn nd).1.nextId
    rcases editTask_state s i nn nd with he | ⟨task, _, he | ⟨d, _, he⟩⟩ <;> rw [he]
    · exact h
    · exact allIds_of_map_eq h (editName_ids s i task nn) (editName_nextId s i task nn)
    · refine allIds_of_map_eq h ?_ (editName_nextId s i task nn)
      have h1 : (updateFirst (fun u => u.id == i) (fun u => { u with date := d })
          (editName s i task nn).tasks).map Task.id =
            (editName s i task nn).tasks.map Task.id := by
        apply map_updateFirst
        intro x
        rfl
      show (updateFirst (fun u => u.id == i) (fun u => { u with date := d })
          (editName s i task nn).tasks).map Task.id = s.tasks.map Task.id
      rw [h1]
      exact editName_ids s i task nn
  | toggle i =>
    show ∀ t ∈ (toggleDone s i).tasks, t.id < (toggleDone s i).nextId
    refine allIds_of_map_eq h ?_ rfl
    apply map_updateFirst
    intro x
    rfl
  | remove i =>
    intro t ht
    exact h t (List.mem_of_mem_filter ht)
  | markAll =>
    show ∀ t ∈ (markAllAsCompleted s).1.tasks, t.id < (markAllAsCompleted s).1.nextId
    unfold markAllAsCompleted
    split
    · exact h
    · intro t ht
      dsimp only at ht ⊢
      rcases List.mem_map.mp ht with ⟨u, hu, he⟩
      rw [← he]
      exact h u hu
  | clearComp =>
    show ∀ t ∈ (clearCompleted s).1.tasks, t.id < (clearCompleted s).1.nextId
    unfold clearCompleted
    split
    · exact h
    · intro t ht
      exact h t (List.mem_of_mem_filter ht)
  | clearAllOp =>
    show ∀ t ∈ (clearAll s).1.tasks, t.id < (clearAll s).1.nextId
    unfold clearAll
    split
    · exact h
    · intro t ht
      simp at ht

theorem idBound_run (ops : List Op) :
    ∀ s : Store, (∀ t ∈ s.tasks, t.id < s.nextId) →
      ∀ t ∈ (run s ops).tasks, t.id < (run s ops).nextId := by
  induction ops with
  | nil => exact fun s h => h
  | cons op ops ih =>
    intro s h
    exact ih (step s op) (idBound_step s op h)

theorem datesOk_step (s : Store) (op : Op) (hok : opDateOk op = true)
    (h : ∀ t ∈ s.tasks, isValidDateFormat t.date = true) :
    ∀ t ∈ (step s op).tasks, isValidDateFormat t.date = true := by
  cases op with
  | initOp =>
    show ∀ t ∈ initState.tasks, isValidDateFormat t.date = true
    decide
  | add n d =>
    show ∀ t ∈ (addTask s n d).1.tasks, isValidDateFormat t.date = true
    rcases addTask_state s n d with he | he <;> rw [he]
    · exact h
    · intro t ht
      dsimp only at ht
      rcases List.mem_append.mp ht with h1 | h1
      · exact h t h1
      · rw [List.mem_singleton] at h1
        subst h1
        exact hok
  | edit i nn nd =>
    show ∀ t ∈ (editTask s i nn nd).1.tasks, isValidDateFormat t.date = true
    rcases editTask_state s i nn nd with he | ⟨task, _, he | ⟨d, hv, he⟩⟩ <;> rw [he]
    · exact h
    · exact allDates_of_map_eq h (editName_dates s i task nn)
    · intro t ht
      dsimp only at ht
      rcases mem_updateFirst ht with h1 | ⟨u, _, he2⟩
      · exact allDates_of_map_eq h (editName_dates s i task nn) t h1
      · rw [he2]
        exact hv
  | toggle i =>
    intro t ht
    rcases mem_updateFirst ht with h1 | ⟨u, hu, he2⟩
    · exact h t h1
    · rw [he2]
      exact h u hu
  | remove i =>
    intro t ht
    exact h t (List.mem_of_mem_filter ht)
  | markAll =>
    show ∀ t ∈ (markAllAsCompleted s).1.tasks, isValidDateFormat t.date = true
    unfold markAllAsCompleted
    split
    · exact h
    · intro t ht
      dsimp only at ht
      rcases List.mem_map.mp ht with ⟨u, hu, he⟩
      rw [← he]
      exact h u hu
  | clearComp =>
    show ∀ t ∈ (clearCompleted s).1.tasks, isValidDateFormat t.date = true
    unfold clearCompleted
    split
    · exact h
    · intro t ht
      exact h t (List.mem_of_mem_filter ht)
  | clearAllOp =>
    show ∀ t ∈ (clearAll s).1.tasks, isValidDateFormat t.date = true
    unfold clearAll
    split
    · exact h
    · intro t ht
      simp at ht

theorem datesOk_run (ops : List Op) :
    ∀ s : Store, (∀ op ∈ ops, opDateOk op = true) →
      (∀ t ∈ s.tasks, isValidDateFormat t.date = true) →
      ∀ t ∈ (run s ops).tasks, isValidDateFormat t.date = true := by
  induction ops with
  | nil => exact fun s _ h => h
  | cons op ops ih =>
    intro s hops h
    exact ih (step s op)
      (fun q hq => hops q (List.mem_cons_of_mem op hq))
      (datesOk_step s op (hops op (List.mem_cons_self op ops)) h)

theorem addAll_ids (ps : List (String × String)) :
    ∀ s : Store, (∀ p ∈ ps, jsTrim p.1 ≠ "" ∧ p.2 ≠ "") →
      (addAll s ps).tasks.map Task.id =
        s.tasks.map Task.id ++ List.range' s.nextId ps.length ∧
      (addAll s ps).nextId = s.nextId + ps.length := by
  induction ps with
  | nil =>
    intro s _
    constructor
    · simp [addAll]
    · simp [addAll]
  | cons p ps ih =>
    intro s hv
    have hp := hv p (List.mem_cons_self p ps)
    have hstep : (addTask s p.1 p.2).1 =
        { tasks := s.tasks ++ [⟨s.nextId, jsTrim p.1, p.2, false⟩],
          nextId := s.nextId + 1 } := by
      unfold addTask
      rw [if_neg hp.1, if_neg hp.2]
    have haddAll : addAll s (p :: ps) = addAll (addTask s p.1 p.2).1 ps := rfl
    rcases ih (addTask s p.1 p.2).1 (fun q hq => hv q (List.mem_cons_of_mem p hq))
      with ⟨h1, h2⟩
    rw [hstep] at h1 h2
    constructor
    · rw [haddAll, hstep, h1]
      dsimp only
      rw [List.map_append, List.append_assoc, List.length_cons, List.range'_succ]
      rfl
    · rw [haddAll, hstep, h2]
      dsimp only
      rw [List.length_cons]
      omega

/-! ## Claims -/

/-- C1 amended: on the seed-initialized store the aggregate reads give
`countTotal = 8`, `countCompleted = 2` and `countPending = 6`, and on every
store `countPending` is `countTotal` minus `countCompleted`. -/
theorem counts_initState :
    countTotal initState = 8 ∧ countCompleted initState = 2 ∧
    countPending initState = 6 ∧
    ∀ s : Store, countPending s = countTotal s - countCompleted s :=
  ⟨by decide, by decide, by decide, fun _ => rfl⟩

/-- C1 counterexample: the seed data has only two completed entries, so the
claimed values `countCompleted = 3` and `countPending = 5` are both wrong. -/
theorem counts_initState_cex :
    ¬ (countCompleted initState = 3 ∧ countPending initState = 5) := by decide

/-- C6: `addTask` rejects a name blank after trimming with `EmptyName`, and
a nonblank name with an empty (falsy) date with `MissingDate`; in both
cases the returned store, hence also `nextId`, is the input store. -/
theorem add_rejects (s : Store) (name date : String) :
    (jsTrim name = "" → addTask s name date = (s, some AddError.EmptyName)) ∧
    (jsTrim name ≠ "" → date = "" →
      addTask s name date = (s, some AddError.MissingDate)) := by
  constructor
  · intro h; simp [addTask, h]
  · intro h1 h2; simp [addTask, h1, h2]

/-- C6 witness: concrete rejected calls on the seed store. -/
theorem add_rejects_witness :
    jsTrim "  " = "" ∧
    addTask initState "  " "2025-01-01" = (initState, some AddError.EmptyName) ∧
    jsTrim "X" ≠ "" ∧
    addTask initState "X" "" = (initState, some AddError.MissingDate) :=
  ⟨by decide, (add_rejects initState "  " "2025-01-01").1 (by decide), by decide,
    (add_rejects initState "X" "").2 (by decide) rfl⟩

/-- C9: a record is kept by `query` iff it passes the status filter
(everything on `"all"`, not completed on `"pending"`, completed on
`"completed"`) and its lower-cased name contains the lower-cased search
text; with status `"pending"` and empty search the result is exactly the
non-completed records. -/
theorem query_filter_spec (s : Store) (st se k : String) (t : Task) :
    (t ∈ query s st se k ↔
      t ∈ s.tasks ∧
        (st = "all" ∨ (st = "pending" ∧ t.completed = false) ∨
          (st = "completed" ∧ t.completed = true)) ∧
        strContains (jsToLower t.name) (jsToLower se) = true) ∧
    (t ∈ query s "pending" "" k ↔ t ∈ s.tasks ∧ t.completed = false) := by
  constructor
  · rw [mem_query, matchesFilter_iff]
  · rw [mem_query, matchesFilter_iff]
    have hc : strContains (jsToLower t.name) (jsToLower "") = true :=
      containsAux_nil _
    simp [hc, show ("pending" : String) ≠ "all" from by decide,
      show ("pending" : String) ≠ "completed" from by decide]

/-- C3 amended: on the seed store, searching `"museo"` with status filter
`"all"` keeps exactly the records whose lower-cased name contains
`"museo"`, and for every sort key these are 7 of the 8 seed records. -/
theorem query_museo_all (k : String) :
    (∀ t : Task, t ∈ query initState "all" "museo" k ↔
      t ∈ initState.tasks ∧ strContains (jsToLower t.name) "museo" = true) ∧
    (query initState "all" "museo" k).length = 7 := by
  constructor
  · intro t
    rw [mem_query, matchesFilter_iff]
    simp [show jsToLower "museo" = "museo" from rfl]
  · rw [length_query]
    decide

/-- C3 counterexample: the `"museo"` search on the seed store returns 7
records, not all 8 (the name `Pinacoteca Nazionale di Bologna` does not
contain `museo`), and with the `"pending"` status filter only 6. -/
theorem query_museo_cex :
    (query initState "all" "museo" "name").length = 7 ∧
    ¬ (∀ t ∈ initState.tasks, t ∈ query initState "all" "museo" "name") ∧
    (query initState "pending" "museo" "name").length = 6 := by decide

/-- C2 counterexample: on the seed store, `edit(1, null, "2025-13-40")` is
not rejected — the string matches the shape regex — and the record date is
overwritten with the calendrically invalid value. -/
theorem edit_date_cex :
    (editTask initState 1 none (some "2025-13-40")).2 = none ∧
    ((editTask initState 1 none (some "2025-13-40")).1.tasks.find?
        (fun u => u.id == 1)).map Task.date = some "2025-13-40" := by decide

/-- C2 amended: for every record id in the store whose current date is not
already `"2025-13-40"`, `edit(id, null, "2025-13-40")` is accepted (the
value passes the `YYYY-MM-DD` shape check despite being calendrically
invalid) and the record date becomes `"2025-13-40"`. -/
theorem edit_calendar_invalid (s : Store) (i : Nat) (t : Task)
    (hf : s.tasks.find? (fun u => u.id == i) = some t)
    (hd : t.date ≠ "2025-13-40") :
    (editTask s i none (some "2025-13-40")).2 = none ∧
    ((editTask s i none (some "2025-13-40")).1.tasks.find?
        (fun u => u.id == i)).map Task.date = some "2025-13-40" := by
  have hcond : ("2025-13-40" : String) ≠ "" ∧ ("2025-13-40" : String) ≠ t.date :=
    ⟨by decide, fun h => hd h.symm⟩
  have hfmt : isValidDateFormat "2025-13-40" = true := by decide
  have key : editTask s i none (some "2025-13-40") =
      ({ s with tasks := (updateFirst (fun u => u.id == i)
          (fun u => { u with date := "2025-13-40" }) s.tasks) }, none) := by
    unfold editTask
    rw [hf]
    simp only [if_pos hcond, hfmt, if_pos]
    rfl
  rw [key]
  have hpt : (t.id == i) = true := find?_pred hf
  have hp : (fun u => u.id == i) ({ t with date := "2025-13-40" } : Task) = true := hpt
  refine ⟨rfl, ?_⟩
  rw [find?_updateFirst hp hf]
  rfl

/-- C2 amended witness: the claim instantiated on the second seed record. -/
theorem edit_calendar_invalid_witness :
    initState.tasks.find? (fun u => u.id == 2) =
      some ⟨2, "Pinacoteca Nazionale di Bologna", "2024-02-20", true⟩ ∧
    ("2024-02-20" : String) ≠ "2025-13-40" ∧
    (editTask initState 2 none (some "2025-13-40")).2 = none ∧
    ((editTask initState 2 none (some "2025-13-40")).1.tasks.find?
        (fun u => u.id == 2)).map Task.date = some "2025-13-40" :=
  ⟨by decide, by decide,
    edit_calendar_invalid initState 2
      ⟨2, "Pinacoteca Nazionale di Bologna", "2024-02-20", true⟩ (by decide) (by decide)⟩

/-- C7: a name update passing the checks (nonblank after trimming,
different from the current name) is applied whatever the accompanying date
reply does; and whenever `InvalidDateFormat` is signalled every record date
in the store, in particular the edited record's prior date, is retained. -/
theorem edit_name_date_independent :
    (∀ (s : Store) (i : Nat) (t : Task) (nm : String) (nd : Option String),
      s.tasks.find? (fun u => u.id == i) = some t →
      jsTrim nm ≠ "" → jsTrim nm ≠ t.name →
      ((editTask s i (some nm) nd).1.tasks.find? (fun u => u.id == i)).map Task.name =
        some (jsTrim nm)) ∧
    (∀ (s : Store) (i : Nat) (nn nd : Option String),
      (editTask s i nn nd).2 = some EditError.InvalidDateFormat →
      (editTask s i nn nd).1.tasks.map Task.date = s.tasks.map Task.date) := by
  constructor
  · intro s i t nm nd hf h1 h2
    have hfind := editName_find nm hf h1 h2
    cases nd with
    | none =>
      have key : editTask s i (some nm) none = (editName s i t (some nm), none) := by
        unfold editTask; rw [hf]
      rw [key]
      dsimp only
      rw [hfind]
      rfl
    | some d =>
      by_cases hc : d ≠ "" ∧ d ≠ t.date
      · by_cases hv : isValidDateFormat d = true
        · have key : editTask s i (some nm) (some d) =
              ({ editName s i t (some nm) with
                  tasks := (updateFirst (fun u => u.id == i)
                    (fun u => { u with date := d })
                    (editName s i t (some nm)).tasks) }, none) := by
            unfold editTask; rw [hf]; simp only [if_pos hc, hv, if_pos]
          rw [key]
          dsimp only
          have hp : (fun u => u.id == i)
              ({ { t with name := jsTrim nm } with date := d } : Task) = true :=
            find?_pred hf
          rw [find?_updateFirst hp hfind]
          rfl
        · have key : editTask s i (some nm) (some d) =
              (editName s i t (some nm), some EditError.InvalidDateFormat) := by
            unfold editTask; rw [hf]; simp only [if_pos hc, if_neg hv]
          rw [key]
          dsimp only
          rw [hfind]
          rfl
      · have key : editTask s i (some nm) (some d) = (editName s i t (some nm), none) := by
          unfold editTask; rw [hf]; simp only [if_neg hc]
        rw [key]
        dsimp only
        rw [hfind]
        rfl
  · intro s i nn nd h
    rcases hfind2 : s.tasks.find? (fun u => u.id == i) with _ | task
    · have key : editTask s i nn nd = (s, none) := by
        unfold editTask; rw [hfind2]
      rw [key] at h
      simp at h
    · cases nd with
      | none =>
        have key : editTask s i nn none = (editName s i task nn, none) := by
          unfold editTask; rw [hfind2]
        rw [key] at h
        simp at h
      | some d =>
        by_cases hc : d ≠ "" ∧ d ≠ task.date
        · by_cases hv : isValidDateFormat d = true
          · have key : editTask s i nn (some d) =
                ({ editName s i task nn with
                    tasks := (updateFirst (fun u => u.id == i)
                      (fun u => { u with date := d })
                      (editName s i task nn).tasks) }, none) := by
              unfold editTask; rw [hfind2]; simp only [if_pos hc, hv, if_pos]
            rw [key] at h
            simp at h
          · have key : editTask s i nn (some d) =
                (editName s i task nn, some EditError.InvalidDateFormat) := by
              unfold editTask; rw [hfind2]; simp only [if_pos hc, if_neg hv]
            rw [key]
            exact editName_dates s i task nn
        · have key : editTask s i nn (some d) = (editName s i task nn, none) := by
            unfold editTask; rw [hfind2]; simp only [if_neg hc]
          rw [key] at h
          simp at h

/-- C7 witness: on the seed store, editing record 1 with a fresh name and
the malformed date `"bad"` applies the name and signals
`InvalidDateFormat` while every stored date is retained. -/
theorem edit_name_date_independent_witness :
    initState.tasks.find? (fun u => u.id == 1) =
      some ⟨1, "Museo Civico Archeologico", "2024-02-15", false⟩ ∧
    jsTrim "Nuovo Museo" ≠ "" ∧
    jsTrim "Nuovo Museo" ≠ "Museo Civico Archeologico" ∧
    ((editTask initState 1 (some "Nuovo Museo") (some "bad")).1.tasks.find?
        (fun u => u.id == 1)).map Task.name = some (jsTrim "Nuovo Museo") ∧
    (editTask initState 1 (some "Nuovo Museo") (some "bad")).2 =
      some EditError.InvalidDateFormat ∧
    (editTask initState 1 (some "Nuovo Museo") (some "bad")).1.tasks.map Task.date =
      initState.tasks.map Task.date :=
  ⟨by decide, by decide, by decide,
    edit_name_date_independent.1 initState 1
      ⟨1, "Museo Civico Archeologico", "2024-02-15", false⟩
      "Nuovo Museo" (some "bad") (by decide) (by decide) (by decide),
    by decide,
    edit_name_date_independent.2 initState 1 (some "Nuovo Museo") (some "bad") (by decide)⟩

/-- C8: `clearAll` on a non-empty store returns the empty store with
`nextId = 1` and a following `add("X", "2025-01-01")` creates the record
with id 1; on an empty store it reports `EmptyStore` and changes nothing. -/
theorem clearAll_spec (s : Store) :
    (s.tasks ≠ [] →
      clearAll s = ({ tasks := [], nextId := 1 }, none) ∧
      (addTask (clearAll s).1 "X" "2025-01-01").1.tasks.map Task.id = [1] ∧
      (addTask (clearAll s).1 "X" "2025-01-01").2 = none) ∧
    (s.tasks = [] → clearAll s = (s, some BulkError.EmptyStore)) := by
  constructor
  · intro h
    have hl : ¬ s.tasks.length = 0 := by
      simpa [List.length_eq_zero] using h
    have key : clearAll s = ({ tasks := [], nextId := 1 }, none) := by
      rw [clearAll, if_neg hl]
    refine ⟨key, ?_, ?_⟩ <;> rw [key] <;> decide
  · intro h
    have hl : s.tasks.length = 0 := by simp [h]
    rw [clearAll, if_pos hl]

/-- C8 witness: the claim instantiated on the seed store and on the empty
store. -/
theorem clearAll_spec_witness :
    initState.tasks ≠ [] ∧
    clearAll initState = ({ tasks := [], nextId := 1 }, none) ∧
    (addTask (clearAll initState).1 "X" "2025-01-01").1.tasks.map Task.id = [1] ∧
    (addTask (clearAll initState).1 "X" "2025-01-01").2 = none ∧
    (({ tasks := [], nextId := 5 } : Store).tasks = [] ∧
      clearAll { tasks := [], nextId := 5 } =
        ({ tasks := [], nextId := 5 }, some BulkError.EmptyStore)) :=
  ⟨by decide, ((clearAll_spec initState).1 (by decide)).1,
    ((clearAll_spec initState).1 (by decide)).2.1,
    ((clearAll_spec initState).1 (by decide)).2.2,
    rfl, (clearAll_spec { tasks := [], nextId := 5 }).2 rfl⟩

/-- C4 amended: along every operation sequence whose `add` calls carry a
date of the shape `\d\x7b4\x7d-\d\x7b2\x7d-\d\x7b2\x7d`, every record in every
reachable store has a date of that shape (seed dates are shape-valid, and
`edit` only installs shape-valid dates); `add` itself never checks the
shape, so the restriction on `add` arguments is necessary. -/
theorem visitDate_format_invariant (ops : List Op)
    (hops : ∀ op ∈ ops, opDateOk op = true) :
    ∀ t ∈ (run initState ops).tasks, isValidDateFormat t.date = true :=
  datesOk_run ops initState hops (by decide)

/-- C4 witness: a run with one shape-valid `add`. -/
theorem visitDate_format_invariant_witness :
    (∀ op ∈ [Op.add "X" "2025-01-01"], opDateOk op = true) ∧
    ∀ t ∈ (run initState [Op.add "X" "2025-01-01"]).tasks,
      isValidDateFormat t.date = true :=
  ⟨by decide, visitDate_format_invariant [Op.add "X" "2025-01-01"] (by decide)⟩

/-- C4 counterexample: `addTask` performs no date-format validation, so one
`add` with date `"bad"` reaches a store holding a record whose date does
not match the pattern. -/
theorem visitDate_format_cex :
    ¬ (∀ t ∈ (run initState [Op.add "X" "bad"]).tasks,
        isValidDateFormat t.date = true) := by decide

/-- C5: from any store whose ids are bounded by `nextId` and duplicate
free (as the seed store is), a sequence of valid `add` calls appends
records whose ids are strictly increasing, and all ids in the resulting
store are unique. -/
theorem add_ids_strictly_increasing (s : Store) (ps : List (String × String))
    (hb : ∀ t ∈ s.tasks, t.id < s.nextId)
    (hnd : (s.tasks.map Task.id).Nodup)
    (hv : ∀ p ∈ ps, jsTrim p.1 ≠ "" ∧ p.2 ≠ "") :
    List.Pairwise (· < ·) (((addAll s ps).tasks.map Task.id).drop s.tasks.length) ∧
    ((addAll s ps).tasks.map Task.id).Nodup := by
  rcases addAll_ids ps s hv with ⟨h1, _⟩
  constructor
  · rw [h1, show s.tasks.length = (s.tasks.map Task.id).length from
      (List.length_map _ _).symm, List.drop_left]
    exact List.pairwise_lt_range' _ _
  · rw [h1, List.nodup_append]
    refine ⟨hnd, List.nodup_range' _ _, ?_⟩
    intro a ha ha'
    rcases List.mem_map.mp ha with ⟨u, hu, he⟩
    have hlt : a < s.nextId := he ▸ hb u hu
    have hge : s.nextId ≤ a := (List.mem_range'_1.mp ha').1
    omega

/-- C5 witness: two valid adds on the seed store. -/
theorem add_ids_strictly_increasing_witness :
    (∀ t ∈ initState.tasks, t.id < initState.nextId) ∧
    (initState.tasks.map Task.id).Nodup ∧
    (∀ p ∈ [("A", "2025-01-01"), ("B", "2025-01-02")],
      jsTrim p.1 ≠ "" ∧ p.2 ≠ "") ∧
    (List.Pairwise (· < ·)
      (((addAll initState [("A", "2025-01-01"), ("B", "2025-01-02")]).tasks.map
          Task.id).drop initState.tasks.length) ∧
      ((addAll initState [("A", "2025-01-01"), ("B", "2025-01-02")]).tasks.map
          Task.id).Nodup) :=
  ⟨by decide, by decide, by decide,
    add_ids_strictly_increasing initState [("A", "2025-01-01"), ("B", "2025-01-02")]
      (by decide) (by decide) (by decide)⟩

/-- C10: in every store reachable from the initialized store by any
operation sequence, `nextId` strictly exceeds the id of every record, and
`removeTask` never changes `nextId`. -/
theorem nextId_exceeds_ids :
    (∀ ops : List Op, ∀ t ∈ (run initState ops).tasks,
      t.id < (run initState ops).nextId) ∧
    (∀ (s : Store) (i : Nat), (removeTask s i).nextId = s.nextId) :=
  ⟨fun ops => idBound_run ops initState (by decide), fun _ _ => rfl⟩

/-- C10 witness: the invariant evaluated on a run that removes a record. -/
theorem nextId_exceeds_ids_witness :
    (⟨1, "Museo Civico Archeologico", "2024-02-15", false⟩ : Task) ∈
      (run initState [Op.remove 8]).tasks ∧
    (⟨1, "Museo Civico Archeologico", "2024-02-15", false⟩ : Task).id <
      (run initState [Op.remove 8]).nextId ∧
    (removeTask initState 3).nextId = initState.nextId :=
  ⟨by decide,
    nextId_exceeds_ids.1 [Op.remove 8]
      ⟨1, "Museo Civico Archeologico", "2024-02-15", false⟩ (by decide),
    nextId_exceeds_ids.2 initState 3⟩

end ToDoList
